import Mathlib

/-!
Verification of the geometric core of the `pdsc` planetary-observation
indexing library against its natural-language specification.

The definitions below are a shallow embedding of the Python source:

* `pdsc/localization.py` — sphere math (`latlon2unit`, `xyz2latlon`,
  `geodesic_distance`) and the `FourCornerLocalizer`;
* `pdsc/segment.py` — `PointQuery`, `TriSegment` and its predicates;
* `pdsc/client.py` — `find_observations_of_latlon`,
  `query_by_observation_id`;
* `pdsc/ingest.py` — `store_segments` record bookkeeping and the
  file-replacement behaviour of the artifact writers.

Floating-point numbers are modelled as real numbers, following the spec's
own use of exact trigonometric functions.
-/

open Real

noncomputable section

/-- Constant `MARS_RADIUS_M` from `pdsc/localization.py`. -/
def MARS_RADIUS_M : ℝ := 3396200

/-- Constant `INCLUSION_EPSILON` from `pdsc/segment.py` (`1e-10`). -/
def INCLUSION_EPSILON : ℝ := 1e-10

/-- Function `np.deg2rad`. -/
def deg2rad (x : ℝ) : ℝ := x * π / 180

/-- Function `np.rad2deg`. -/
def rad2deg (x : ℝ) : ℝ := x * 180 / π

/-- Conversion `np.deg2rad` applied to a (lat, lon) pair. -/
def deg2radLL (p : ℝ × ℝ) : ℝ × ℝ := (deg2rad p.1, deg2rad p.2)

/-- A vector in Cartesian 3-space (a row of a numpy array in the source). -/
structure Vec3 where
  x : ℝ
  y : ℝ
  z : ℝ
deriving DecidableEq

/-- Product `np.dot` of two 3-vectors. -/
def vdot (a b : Vec3) : ℝ := a.x * b.x + a.y * b.y + a.z * b.z

/-- Product `np.cross` of two 3-vectors. -/
def vcross (a b : Vec3) : Vec3 :=
  ⟨a.y * b.z - a.z * b.y, a.z * b.x - a.x * b.z, a.x * b.y - a.y * b.x⟩

/-- Scalar multiplication of a 3-vector. -/
def vsmul (c : ℝ) (a : Vec3) : Vec3 := ⟨c * a.x, c * a.y, c * a.z⟩

/-- Componentwise sum of 3-vectors. -/
def vadd (a b : Vec3) : Vec3 := ⟨a.x + b.x, a.y + b.y, a.z + b.z⟩

/-- Componentwise difference of 3-vectors. -/
def vsub (a b : Vec3) : Vec3 := ⟨a.x - b.x, a.y - b.y, a.z - b.z⟩

/-- The zero vector. -/
def vzero : Vec3 := ⟨0, 0, 0⟩

/-- Norm `np.linalg.norm` of a 3-vector. -/
def vnorm (a : Vec3) : ℝ := Real.sqrt (vdot a a)

/-- Function `np.arctan2 y x`, embedded as the argument of the complex number
`x + y*I`; both functions return an angle in `(-π, π]` and agree on all
inputs, including `arctan2 0 0 = 0 = arg 0`. -/
def arctan2 (y x : ℝ) : ℝ := Complex.arg ⟨x, y⟩

/-- The unit vector of a latitude/longitude pair given in *radians*
(the body of `latlon2unit` after its `deg2rad` conversion). -/
def unitOfRad (ll : ℝ × ℝ) : Vec3 :=
  ⟨Real.cos ll.1 * Real.cos ll.2, Real.cos ll.1 * Real.sin ll.2, Real.sin ll.1⟩

/-- Function `pdsc.localization.latlon2unit`: latitude/longitude in degrees to a
point on the unit sphere. -/
def latlon2unit (ll : ℝ × ℝ) : Vec3 := unitOfRad (deg2radLL ll)

/-- The total function underlying `pdsc.localization.xyz2latlon`: the
formula `(rad2deg (arcsin (z/‖v‖)), rad2deg (atan2 (y/‖v‖) (x/‖v‖)))`
computed by the source after its zero-norm check. -/
def xyz2latlonT (v : Vec3) : ℝ × ℝ :=
  (rad2deg (Real.arcsin (v.z / vnorm v)),
   rad2deg (arctan2 (v.y / vnorm v) (v.x / vnorm v)))

/-- Function `pdsc.localization.xyz2latlon`: raises `ValueError` (modelled as
`none`) when the norm of the input is zero. -/
def xyz2latlon (v : Vec3) : Option (ℝ × ℝ) :=
  if vnorm v = 0 then none else some (xyz2latlonT v)

/-- The haversine of a point pair as computed by sklearn's `haversine`
metric: `sin²(Δlat/2) + cos lat₁ · cos lat₂ · sin²(Δlon/2)`;
inputs are (lat, lon) in radians. -/
def havTerm (a b : ℝ × ℝ) : ℝ :=
  Real.sin ((b.1 - a.1) / 2) ^ 2 +
    Real.cos a.1 * Real.cos b.1 * Real.sin ((b.2 - a.2) / 2) ^ 2

/-- Function `pdsc.localization.geodesic_distance`: `radius` times the haversine
distance `2·arcsin √(havTerm)` between two (lat, lon) pairs in radians.
The radius defaults to `MARS_RADIUS_M` in the source. -/
def geodesic_distance (a b : ℝ × ℝ) (radius : ℝ := MARS_RADIUS_M) : ℝ :=
  radius * (2 * Real.arcsin (Real.sqrt (havTerm a b)))

/-- Minimum `np.min` of a nonempty list (the source only applies it to nonempty
lists; on `[]` this returns the junk value `0`). -/
def npMin (l : List ℝ) : ℝ := l.foldr min (l.headD 0)

/-- Maximum `np.max` of a nonempty list (the source only applies it to nonempty
lists; on `[]` this returns the junk value `0`). -/
def npMax (l : List ℝ) : ℝ := l.foldr max (l.headD 0)

end

-- Basic sanity facts about the embedding, used throughout.

theorem vdot_self_nonneg (a : Vec3) : 0 ≤ vdot a a := by
  simp only [vdot]
  nlinarith [sq_nonneg a.x, sq_nonneg a.y, sq_nonneg a.z]

theorem vnorm_eq_zero_iff (a : Vec3) : vnorm a = 0 ↔ a = vzero := by
  constructor
  · intro h
    have h2 : vdot a a = 0 := by
      have := Real.sqrt_eq_zero (vdot_self_nonneg a) |>.mp h
      exact this
    obtain ⟨ax, ay, az⟩ := a
    simp only [vdot] at h2
    have hx : ax = 0 := by nlinarith
    have hy : ay = 0 := by nlinarith
    have hz : az = 0 := by nlinarith
    simp [vzero, hx, hy, hz]
  · intro h; subst h
    simp only [vnorm, vdot, vzero]
    norm_num

theorem sq_vnorm (a : Vec3) : vnorm a ^ 2 = vdot a a :=
  Real.sq_sqrt (vdot_self_nonneg a)

theorem vnorm_nonneg (a : Vec3) : 0 ≤ vnorm a := Real.sqrt_nonneg _

/-- Vectors produced by `unitOfRad` always lands on the unit sphere. -/
theorem vdot_unitOfRad_self (ll : ℝ × ℝ) : vdot (unitOfRad ll) (unitOfRad ll) = 1 := by
  have h1 : Real.sin ll.1 ^ 2 + Real.cos ll.1 ^ 2 = 1 := Real.sin_sq_add_cos_sq ll.1
  have h2 : Real.sin ll.2 ^ 2 + Real.cos ll.2 ^ 2 = 1 := Real.sin_sq_add_cos_sq ll.2
  simp only [unitOfRad, vdot]
  nlinarith [h1, h2]

theorem vnorm_unitOfRad (ll : ℝ × ℝ) : vnorm (unitOfRad ll) = 1 := by
  simp [vnorm, vdot_unitOfRad_self]

theorem deg2rad_rad2deg (x : ℝ) : deg2rad (rad2deg x) = x := by
  have hπ : (π : ℝ) ≠ 0 := Real.pi_ne_zero
  field_simp [deg2rad, rad2deg]

theorem rad2deg_deg2rad (x : ℝ) : rad2deg (deg2rad x) = x := by
  have hπ : (π : ℝ) ≠ 0 := Real.pi_ne_zero
  field_simp [deg2rad, rad2deg]

noncomputable section

/-- Class `pdsc.segment.PointQuery`: a validated point-inclusion query.
Latitude and longitude in degrees, radius in meters. -/
structure PointQuery where
  lat : ℝ
  lon : ℝ
  radius : ℝ

/-- The `PointQuery` constructor: raises `ValueError` (modelled as
`none`) when `radius < 0` or when `lat` is outside `[-90, 90]`, in that
order, accepting any longitude. -/
def mkPointQuery (lat lon radius : ℝ) : Option PointQuery :=
  if radius < 0 then none
  else if lat < -90 ∨ 90 < lat then none
  else some ⟨lat, lon, radius⟩

/-- Property `PointQuery.xyz`: the query point on the unit sphere (computed
lazily in the source from the stored latlon pair). -/
def PointQuery.xyz (q : PointQuery) : Vec3 := latlon2unit (q.lat, q.lon)

/-- Class `pdsc.segment.TriSegment`: a spherical triangle given by three
(lat, lon) vertices in degrees, in counter-clockwise order viewed from
outside the sphere. -/
structure TriSegment where
  latlon0 : ℝ × ℝ
  latlon1 : ℝ × ℝ
  latlon2 : ℝ × ℝ

/-- Field `TriSegment.latlon_points` as a list. -/
def TriSegment.latlonPoints (s : TriSegment) : List (ℝ × ℝ) :=
  [s.latlon0, s.latlon1, s.latlon2]

/-- Row 0 of `TriSegment.xyz_points`. -/
def TriSegment.xyzP0 (s : TriSegment) : Vec3 := latlon2unit s.latlon0

/-- Row 1 of `TriSegment.xyz_points`. -/
def TriSegment.xyzP1 (s : TriSegment) : Vec3 := latlon2unit s.latlon1

/-- Row 2 of `TriSegment.xyz_points`. -/
def TriSegment.xyzP2 (s : TriSegment) : Vec3 := latlon2unit s.latlon2

/-- Mean `np.average(self.xyz_points, axis=0)`. -/
def TriSegment.xyzMean (s : TriSegment) : Vec3 :=
  vsmul (1 / 3) (vadd (vadd s.xyzP0 s.xyzP1) s.xyzP2)

/-- Method `TriSegment.center`: `xyz2latlon` of the mean of the vertex unit
vectors; propagates the `ValueError` of `xyz2latlon` on a degenerate
(zero-mean) triangle. -/
def TriSegment.center (s : TriSegment) : Option (ℝ × ℝ) := xyz2latlon s.xyzMean

/-- Normalization of a vector as performed by `TriSegment.normals`
(`v / ‖v‖`, componentwise). -/
def nmlz (v : Vec3) : Vec3 := vsmul (1 / vnorm v) v

/-- The rows of `TriSegment.normals`: unit normals of the planes through
the origin and each pair of adjacent vertices, in the source's order
`v0 × v1, v1 × v2, v2 × v0`. -/
def TriSegment.normalsList (s : TriSegment) : List Vec3 :=
  [nmlz (vcross s.xyzP0 s.xyzP1),
   nmlz (vcross s.xyzP1 s.xyzP2),
   nmlz (vcross s.xyzP2 s.xyzP0)]

/-- Method `TriSegment.is_inside`: `np.all(np.dot(self.normals, xyz) >= -INCLUSION_EPSILON)`. -/
def TriSegment.isInside (s : TriSegment) (p : Vec3) : Prop :=
  ∀ n ∈ s.normalsList, -INCLUSION_EPSILON ≤ vdot n p

/-- Property `TriSegment.radius`: the maximum geodesic distance (in meters, on a
Mars-radius sphere) from the segment center to any vertex; `none` when
the center is degenerate. -/
def TriSegment.radius (s : TriSegment) : Option ℝ :=
  (s.center).map fun c =>
    npMax (s.latlonPoints.map fun ll =>
      geodesic_distance (deg2radLL c) (deg2radLL ll))

open Classical in
/-- Method `TriSegment.distance_to_point`: zero if the point is inside;
otherwise the minimum geodesic distance from the point to the vertices
and to those projections of the point onto the edge planes that are
nonzero and fall inside the segment.  The source converts each retained
projection with `xyz2latlon`, which cannot raise there because the
retained projections have a nonzero coordinate sum; `xyz2latlonT` is
that same conversion. -/
def TriSegment.distanceToPoint (s : TriSegment) (p : Vec3) : ℝ :=
  if s.isInside p then 0
  else
    npMin (((s.latlonPoints ++
      ((s.normalsList.map fun n => vsub p (vsmul (vdot n p) n)).filterMap
        fun pi =>
          if pi.x + pi.y + pi.z ≠ 0 ∧ s.isInside pi
          then some (xyz2latlonT pi) else none))).map
      fun ll => geodesic_distance (deg2radLL (xyz2latlonT p)) (deg2radLL ll))

/-- Method `TriSegment.includes_point`: exact inclusion for a zero-radius query,
otherwise a distance comparison against the query radius. -/
def TriSegment.includesPoint (s : TriSegment) (q : PointQuery) : Prop :=
  if q.radius = 0 then s.isInside q.xyz
  else s.distanceToPoint q.xyz ≤ q.radius

/-- The scalar triple product `⟨v0 × v1, v2⟩` of the vertex unit vectors:
positive exactly for nondegenerate triangles whose vertices are in
counter-clockwise order viewed from outside the sphere (spec invariant I1). -/
def TriSegment.tripleProduct (s : TriSegment) : ℝ :=
  vdot (vcross s.xyzP0 s.xyzP1) s.xyzP2

/-- The unit vector pointing at the segment center. -/
def TriSegment.centerUnit (s : TriSegment) : Vec3 :=
  vsmul (1 / vnorm s.xyzMean) s.xyzMean

/-- The smallest inner product between a vertex unit vector and the
center unit vector (the cosine of the bounding-cap angle `radius / R`). -/
def TriSegment.minCenterDot (s : TriSegment) : ℝ :=
  min (vdot s.xyzP0 s.centerUnit)
    (min (vdot s.xyzP1 s.centerUnit) (vdot s.xyzP2 s.centerUnit))

end

open Classical in
/-- The accumulation loop of `PdsClient.find_observations_of_latlon`
over the candidate `(observation_id, segment)` pairs returned for the
tree's candidate segment ids: an observation id already accepted is
skipped, otherwise it is accepted when the candidate segment includes
the query point. -/
noncomputable def findObsFold (q : PointQuery)
    (cands : List (String × TriSegment)) (acc : Finset String) : Finset String :=
  match cands with
  | [] => acc
  | (oid, seg) :: rest =>
      if oid ∈ acc then findObsFold q rest acc
      else if seg.includesPoint q then findObsFold q rest (insert oid acc)
      else findObsFold q rest acc

/-- Method `PdsClient.find_observations_of_latlon`, given the candidate
segments loaded from the segment table for the ids produced by the
segment tree: the accumulated observation-id set, returned as a sorted
list (`sorted(overlapping_observations)`). -/
noncomputable def find_observations_of_latlon
    (cands : List (String × TriSegment)) (q : PointQuery) : List String :=
  (findObsFold q cands ∅).sort (· ≤ ·)

/-- A metadata row, modelled as its `observation_id` primary key paired
with the remaining column payload, with Python's lexicographic tuple
ordering. -/
abbrev MetaRow := String ×ₗ ℕ

/-- Method `PdsClient.query_by_observation_id`, given the metadata table as a
list of rows in its natural (on-disk) order: for each requested id the
matching rows are collected into a Python `set`, and the union is
returned via `sorted(...)`.  When the id collection is empty the source
raises `TypeError` (no `SELECT` ever ran on the cursor, so
`cur.description` is `None` and the comprehension over it fails),
modelled as `none`; a single id is wrapped into a one-element list
before this point. -/
def query_by_observation_id (table : List (String × ℕ))
    (ids : List String) : Option (List MetaRow) :=
  if ids = [] then none
  else some ((ids.foldl (fun acc oid =>
      acc ∪ ((table.filter fun r => r.1 = oid).map toLex).toFinset) ∅).sort (· ≤ ·))

/-- One parsed metadata record as seen by `pdsc.ingest.store_segments`.
`segmentsOrError = none` models `TriSegmentedFootprint` raising
(`TypeError`/`ValueError` from the localizer or segmenter); otherwise it
holds the complete list of segments of the observation, since the
constructor materialises `list(self._segment())` before returning.
`hasObservationId` models `hasattr(s.metadata, 'observation_id')`.
Segments are abstracted to tokens. -/
structure IngestRecord where
  segmentsOrError : Option (List ℕ)
  hasObservationId : Bool
  observationId : String
deriving DecidableEq

/-- One iteration of the `for m in metadata` loop of `store_segments`:
on a segmenter error the record is skipped; otherwise each segment is
appended to the segment list and then, if the record has an
`observation_id`, the id is appended to the id list — if it does not,
a `ValueError` is raised *after the first segment was already appended*,
and the `except` clause moves to the next record. -/
def storeSegmentsStep (acc : List String × List ℕ) (r : IngestRecord) :
    List String × List ℕ :=
  match r.segmentsOrError with
  | none => acc
  | some segs =>
      if r.hasObservationId then
        (acc.1 ++ segs.map fun _ => r.observationId, acc.2 ++ segs)
      else
        match segs with
        | [] => acc
        | s0 :: _ => (acc.1, acc.2 ++ [s0])

/-- The `observation_ids` and `segments` lists accumulated by
`store_segments` over the record stream. -/
def storeSegmentsLists (records : List IngestRecord) : List String × List ℕ :=
  records.foldl storeSegmentsStep ([], [])

/-- The rows inserted into the segment table by `store_segments`:
`(i, oid, segment)` for `i, (oid, segment) in enumerate(zip(observation_ids, segments))`. -/
def storedSegmentRows (records : List IngestRecord) : List (ℕ × String × ℕ) :=
  (((storeSegmentsLists records).1.zip (storeSegmentsLists records).2).enum).map
    fun p => (p.1, p.2.1, p.2.2)

/-- Whether ingesting a record completes without raising: its
segmentation must succeed, and the `observation_id` bookkeeping must not
raise (which it does whenever the attribute is missing and at least one
segment exists). -/
def recordSucceeds (r : IngestRecord) : Bool :=
  match r.segmentsOrError with
  | none => false
  | some segs => r.hasObservationId || segs.isEmpty

/-- The `(observation_id, segment)` pairs the specification promises:
the complete segmentations of exactly the records that did not raise,
each attributed to its own observation id, in emission order. -/
def specPairs (records : List IngestRecord) : List (String × ℕ) :=
  records.flatMap fun r =>
    if recordSucceeds r then
      (r.segmentsOrError.getD []).map fun sg => (r.observationId, sg)
    else []

/-- The segment rows the specification promises: `specPairs` with ids
assigned in emission order. -/
def specSegmentRows (records : List IngestRecord) : List (ℕ × String × ℕ) :=
  ((specPairs records).enum).map fun p => (p.1, p.2.1, p.2.2)

/-- Observable states of one on-disk artifact during replacement. -/
inductive ArtifactState where
  | oldComplete
  | missingFile
  | halfWritten
  | newComplete
deriving DecidableEq, Repr

/-- File-system effects on the artifact path issued by the ingestion
writers. `removeFile` is `os.remove(outputfile)`; `openTrunc` is
opening/creating the artifact for writing (via `sqlite3.connect` or
`open(outputfile, 'wb+')`), after which the content is incomplete until
`writeDone` (commit/close).  `writeTemp`/`renameTemp` — writing a full
temporary copy and atomically renaming it over the artifact — are the
operations the spec describes; the source never issues them. -/
inductive FsOp where
  | removeFile
  | openTrunc
  | writeDone
  | writeTemp
  | renameTemp
deriving DecidableEq, Repr

/-- Effect of one file-system operation on the observable state of the
artifact path. -/
def fsStep (s : ArtifactState) (op : FsOp) : ArtifactState :=
  match op with
  | .removeFile => .missingFile
  | .openTrunc => .halfWritten
  | .writeDone => .newComplete
  | .writeTemp => s
  | .renameTemp => .newComplete

/-- The successive states of the artifact path while a trace runs,
starting from the given state. -/
def statesFrom (s : ArtifactState) : List FsOp → List ArtifactState
  | [] => [s]
  | op :: rest => s :: statesFrom (fsStep s op) rest

/-- All states a concurrent reader can observe while a trace runs,
starting from an existing complete old artifact (the re-ingestion
scenario). -/
def observedStates (ops : List FsOp) : List ArtifactState :=
  statesFrom .oldComplete ops

/-- The file-system trace of `store_metadata` / `store_segments` on an
artifact that already exists: `os.remove(outputfile)` followed by
`sqlite3.connect(outputfile)` (creating the database file) and the
inserts up to the closing of the `with` block. -/
def storeDbOps (alreadyExists : Bool) : List FsOp :=
  (if alreadyExists then [FsOp.removeFile] else []) ++ [FsOp.openTrunc, FsOp.writeDone]

/-- The file-system trace of `SegmentTree.save`: `open(outputfile, 'wb+')`
truncates the artifact in place, then `pickle.dump` writes it. -/
def segmentTreeSaveOps : List FsOp := [FsOp.openTrunc, FsOp.writeDone]

/-- The atomic-replacement discipline claimed by the specification: at
every instant the artifact path holds either the old complete artifact
or the new complete artifact. -/
def atomicReplacement (ops : List FsOp) : Prop :=
  ∀ s ∈ observedStates ops,
    s = ArtifactState.oldComplete ∨ s = ArtifactState.newComplete

noncomputable section

/-- The constructor data of `pdsc.localization.FourCornerLocalizer`:
four corners, given in the order top-left, bottom-left, bottom-right,
top-right (each a (lat, lon) pair in degrees), and the pixel grid size. -/
structure FourCornerParams where
  cornerTL : ℝ × ℝ
  cornerBL : ℝ × ℝ
  cornerBR : ℝ × ℝ
  cornerTR : ℝ × ℝ
  nRows : ℝ
  nCols : ℝ

/-- The interpolated vector computed by
`FourCornerLocalizer.pixel_to_latlon`: with `corner_matrix` rows
`[TL, TR]` and `[BL, BR]`, and weights `dx = [n_cols - col, col]`,
`dy = [n_rows - row, row]`, the source computes
`np.dot(dx, np.dot(corner_matrix[..., dim], dy)) / (n_rows * n_cols)`
per dimension. -/
def fourCornerInterpolated (fc : FourCornerParams) (row col : ℝ) : Vec3 :=
  vsmul (1 / (fc.nRows * fc.nCols))
    (vadd
      (vadd (vsmul ((fc.nCols - col) * (fc.nRows - row)) (latlon2unit fc.cornerTL))
            (vsmul ((fc.nCols - col) * row) (latlon2unit fc.cornerTR)))
      (vadd (vsmul (col * (fc.nRows - row)) (latlon2unit fc.cornerBL))
            (vsmul (col * row) (latlon2unit fc.cornerBR))))

/-- Method `FourCornerLocalizer.pixel_to_latlon`. -/
def fourCornerPixelToLatlon (fc : FourCornerParams) (row col : ℝ) : Option (ℝ × ℝ) :=
  xyz2latlon (fourCornerInterpolated fc row col)

/-- The bilinear combination stated by the specification (following the
spec's words, for comparison with the source's `fourCornerInterpolated`):
`((R−r)((C−c)·v_TL + c·v_TR) + r((C−c)·v_BL + c·v_BR)) / (R·C)`. -/
def specFourCornerCombination (fc : FourCornerParams) (row col : ℝ) : Vec3 :=
  vsmul (1 / (fc.nRows * fc.nCols))
    (vadd
      (vsmul (fc.nRows - row)
        (vadd (vsmul (fc.nCols - col) (latlon2unit fc.cornerTL))
              (vsmul col (latlon2unit fc.cornerTR))))
      (vsmul row
        (vadd (vsmul (fc.nCols - col) (latlon2unit fc.cornerBL))
              (vsmul col (latlon2unit fc.cornerBR)))))

end

-- Geometry helper lemmas.

theorem sin_half_sq (t : ℝ) : Real.sin (t / 2) ^ 2 = 1 / 2 - Real.cos t / 2 := by
  have h := Real.cos_two_mul (t / 2)
  have h2 : 2 * (t / 2) = t := by ring
  rw [h2] at h
  have h3 := Real.sin_sq_add_cos_sq (t / 2)
  nlinarith [h, h3]

/-- Cauchy–Schwarz upper bound for vectors on the unit sphere. -/
theorem vdot_le_one {a b : Vec3} (ha : vdot a a = 1) (hb : vdot b b = 1) :
    vdot a b ≤ 1 := by
  obtain ⟨ax, ay, az⟩ := a
  obtain ⟨bx, by', bz⟩ := b
  simp only [vdot] at *
  nlinarith [sq_nonneg (ax - bx), sq_nonneg (ay - by'), sq_nonneg (az - bz)]

/-- Cauchy–Schwarz lower bound for vectors on the unit sphere. -/
theorem neg_one_le_vdot {a b : Vec3} (ha : vdot a a = 1) (hb : vdot b b = 1) :
    -1 ≤ vdot a b := by
  obtain ⟨ax, ay, az⟩ := a
  obtain ⟨bx, by', bz⟩ := b
  simp only [vdot] at *
  nlinarith [sq_nonneg (ax + bx), sq_nonneg (ay + by'), sq_nonneg (az + bz)]

/-- The haversine term equals `(1 - ⟨u, v⟩)/2` for the unit vectors of
the two points. -/
theorem havTerm_eq (a b : ℝ × ℝ) :
    havTerm a b = (1 - vdot (unitOfRad a) (unitOfRad b)) / 2 := by
  simp only [havTerm, unitOfRad, vdot]
  rw [sin_half_sq, sin_half_sq, Real.cos_sub, Real.cos_sub]
  ring

/-- The geodesic distance computed through the haversine formula equals
`radius` times the angle `arccos ⟨u, v⟩` between the unit vectors of the
two points. -/
theorem geodesic_distance_eq_arccos (a b : ℝ × ℝ) (radius : ℝ) :
    geodesic_distance a b radius =
      radius * Real.arccos (vdot (unitOfRad a) (unitOfRad b)) := by
  have hu : vdot (unitOfRad a) (unitOfRad a) = 1 := vdot_unitOfRad_self a
  have hv : vdot (unitOfRad b) (unitOfRad b) = 1 := vdot_unitOfRad_self b
  set d : ℝ := vdot (unitOfRad a) (unitOfRad b) with hd
  have hle : d ≤ 1 := vdot_le_one hu hv
  have hge : -1 ≤ d := neg_one_le_vdot hu hv
  have hh : havTerm a b = (1 - d) / 2 := havTerm_eq a b
  have hh0 : 0 ≤ havTerm a b := by rw [hh]; linarith
  have hh1 : havTerm a b ≤ 1 := by rw [hh]; linarith
  have hs0 : 0 ≤ Real.sqrt (havTerm a b) := Real.sqrt_nonneg _
  have hs1 : Real.sqrt (havTerm a b) ≤ 1 := by
    calc Real.sqrt (havTerm a b) ≤ Real.sqrt 1 := Real.sqrt_le_sqrt hh1
    _ = 1 := Real.sqrt_one
  set θ : ℝ := Real.arcsin (Real.sqrt (havTerm a b)) with hθ
  have hsin : Real.sin θ = Real.sqrt (havTerm a b) :=
    Real.sin_arcsin (by linarith) hs1
  have hsinsq : Real.sin θ ^ 2 = havTerm a b := by
    rw [hsin]; exact Real.sq_sqrt hh0
  have hcos2θ : Real.cos (2 * θ) = d := by
    have h := Real.cos_two_mul θ
    have h2 := Real.sin_sq_add_cos_sq θ
    rw [hh] at hsinsq
    nlinarith [h, h2, hsinsq]
  have hθ0 : 0 ≤ θ := Real.arcsin_nonneg.mpr hs0
  have hθpi : θ ≤ π / 2 := Real.arcsin_le_pi_div_two _
  have harccos : Real.arccos d = 2 * θ := by
    rw [← hcos2θ]
    exact Real.arccos_cos (by linarith) (by linarith)
  simp only [geodesic_distance]
  rw [harccos]

/-- Function `arccos` is antitone on all of `ℝ` (it is clamped outside `[-1, 1]`). -/
theorem arccos_antitone {a b : ℝ} (h : a ≤ b) : Real.arccos b ≤ Real.arccos a := by
  rw [Real.arccos_eq_pi_div_two_sub_arcsin, Real.arccos_eq_pi_div_two_sub_arcsin]
  have := Real.monotone_arcsin h
  linarith

theorem vnorm_pos {v : Vec3} (hv : v ≠ vzero) : 0 < vnorm v := by
  rcases lt_or_eq_of_le (vnorm_nonneg v) with h | h
  · exact h
  · exact absurd ((vnorm_eq_zero_iff v).mp h.symm) hv

set_option maxHeartbeats 1000000 in
/-- Converting a nonzero vector to latitude/longitude with `xyz2latlon`
and back to a unit vector recovers the normalized vector. -/
theorem unitOfRad_xyz2latlonT {v : Vec3} (hv : v ≠ vzero) :
    unitOfRad (deg2radLL (xyz2latlonT v)) = vsmul (1 / vnorm v) v := by
  obtain ⟨vx, vy, vz⟩ := v
  set n : ℝ := vnorm ⟨vx, vy, vz⟩ with hn
  have hnpos : 0 < n := vnorm_pos hv
  have hn2 : n ^ 2 = vx * vx + vy * vy + vz * vz := sq_vnorm ⟨vx, vy, vz⟩
  have hz2 : (vz / n) ^ 2 ≤ 1 := by
    rw [div_pow]
    rw [div_le_one (by positivity)]
    nlinarith [sq_nonneg vx, sq_nonneg vy]
  have hz1 : -1 ≤ vz / n := by nlinarith [hz2]
  have hz1' : vz / n ≤ 1 := by nlinarith [hz2]
  set m : ℝ := Real.sqrt (vx ^ 2 + vy ^ 2) with hm
  have hmnn : 0 ≤ m := Real.sqrt_nonneg _
  have hm2 : m ^ 2 = vx ^ 2 + vy ^ 2 := Real.sq_sqrt (by positivity)
  have hcosarcsin : Real.cos (Real.arcsin (vz / n)) = m / n := by
    rw [Real.cos_arcsin]
    have : 1 - (vz / n) ^ 2 = (vx ^ 2 + vy ^ 2) / n ^ 2 := by
      field_simp
      nlinarith [hn2]
    rw [this, Real.sqrt_div (by positivity), Real.sqrt_sq hnpos.le, ← hm]
  have hsinarcsin : Real.sin (Real.arcsin (vz / n)) = vz / n :=
    Real.sin_arcsin hz1 hz1'
  set w : ℂ := ⟨vx / n, vy / n⟩ with hw
  have habsw : Complex.abs w = m / n := by
    rw [Complex.abs_apply, hw, Complex.normSq_mk]
    have : vx / n * (vx / n) + vy / n * (vy / n) = (vx ^ 2 + vy ^ 2) / n ^ 2 := by
      field_simp; ring
    rw [this, Real.sqrt_div (by positivity), Real.sqrt_sq hnpos.le, ← hm]
  simp only [xyz2latlonT, deg2radLL, arctan2, deg2rad_rad2deg]
  by_cases hm0 : m = 0
  · have hxy : vx ^ 2 + vy ^ 2 = 0 := by
      have := hm2; rw [hm0] at this; nlinarith [this]
    have hx0 : vx = 0 := by nlinarith [hxy, sq_nonneg vx, sq_nonneg vy]
    have hy0 : vy = 0 := by nlinarith [hxy, sq_nonneg vx, sq_nonneg vy]
    simp only [unitOfRad, vsmul, Vec3.mk.injEq]
    rw [hcosarcsin, hsinarcsin, hm0, hx0, hy0]
    norm_num
    rw [div_eq_mul_inv, mul_comm]
  · have hwne : w ≠ 0 := by
      intro h0
      rw [h0] at habsw
      simp only [map_zero] at habsw
      exact hm0 (by field_simp at habsw; linarith [habsw])
    have hcosarg : Real.cos (Complex.arg w) = (vx / n) / (m / n) := by
      rw [Complex.cos_arg hwne, habsw]
    have hsinarg : Real.sin (Complex.arg w) = (vy / n) / (m / n) := by
      rw [Complex.sin_arg, habsw]
    simp only [unitOfRad, vsmul, Vec3.mk.injEq]
    rw [hcosarcsin, hsinarcsin, hcosarg, hsinarg]
    have hmne : m ≠ 0 := hm0
    have hnne : n ≠ 0 := hnpos.ne'
    clear hcosarcsin hsinarcsin hcosarg hsinarg habsw hwne hm2 hz2 hz1 hz1' hn2 hv
    clear_value n m w
    refine ⟨?_, ?_, ?_⟩
    · field_simp
      ring
    · field_simp
      ring
    · rw [div_eq_mul_inv, mul_comm, one_div]

theorem vdot_comm (a b : Vec3) : vdot a b = vdot b a := by
  simp only [vdot]; ring

theorem vdot_nmlz_left (w p : Vec3) : vdot (nmlz w) p = vdot w p / vnorm w := by
  simp only [nmlz, vsmul, vdot]
  ring

/-- Cramer decomposition: any vector times the scalar triple product is
the combination of the three vertices weighted by the cross-product
inner products. -/
theorem cramer_identity (v0 v1 v2 p : Vec3) :
    vadd (vadd (vsmul (vdot (vcross v1 v2) p) v0)
               (vsmul (vdot (vcross v2 v0) p) v1))
         (vsmul (vdot (vcross v0 v1) p) v2)
      = vsmul (vdot (vcross v0 v1) v2) p := by
  simp only [vadd, vsmul, vdot, vcross, Vec3.mk.injEq]
  refine ⟨?_, ?_, ?_⟩ <;> ring

/-- Lagrange identity for the cross product. -/
theorem vdot_vcross_self (u v : Vec3) :
    vdot (vcross u v) (vcross u v) = vdot u u * vdot v v - vdot u v ^ 2 := by
  simp only [vdot, vcross]
  ring

/-- The cross product of two unit vectors has norm at most one. -/
theorem vnorm_vcross_le_one {u v : Vec3} (hu : vdot u u = 1) (hv : vdot v v = 1) :
    vnorm (vcross u v) ≤ 1 := by
  have h : vdot (vcross u v) (vcross u v) ≤ 1 := by
    rw [vdot_vcross_self, hu, hv]
    nlinarith [sq_nonneg (vdot u v)]
  calc vnorm (vcross u v) = Real.sqrt (vdot (vcross u v) (vcross u v)) := rfl
  _ ≤ Real.sqrt 1 := Real.sqrt_le_sqrt h
  _ = 1 := Real.sqrt_one

theorem npMax_three (a b c : ℝ) : npMax [a, b, c] = max a (max b c) := by
  simp only [npMax, List.foldr, List.headD]
  rw [max_comm c a, max_left_comm b a c, ← max_assoc, max_self]

theorem npMin_three (a b c : ℝ) : npMin [a, b, c] = min a (min b c) := by
  simp only [npMin, List.foldr, List.headD]
  rw [min_comm c a, min_left_comm b a c, ← min_assoc, min_self]

theorem max_arccos_eq_arccos_min (a b : ℝ) :
    max (Real.arccos a) (Real.arccos b) = Real.arccos (min a b) := by
  rcases le_total a b with h | h
  · rw [min_eq_left h, max_eq_left (arccos_antitone h)]
  · rw [min_eq_right h, max_eq_right (arccos_antitone h)]

theorem mul_max_nonneg (r x y : ℝ) (hr : 0 ≤ r) :
    max (r * x) (r * y) = r * max x y := by
  rcases le_total x y with h | h
  · rw [max_eq_right h, max_eq_right (by nlinarith)]
  · rw [max_eq_left h, max_eq_left (by nlinarith)]

theorem vdot_vsmul_left (t : ℝ) (a b : Vec3) : vdot (vsmul t a) b = t * vdot a b := by
  simp only [vdot, vsmul]; ring

theorem vdot_vadd_left (a b c : Vec3) : vdot (vadd a b) c = vdot a c + vdot b c := by
  simp only [vdot, vadd]; ring

theorem tripleProduct_cyclic₁ (v0 v1 v2 : Vec3) :
    vdot (vcross v1 v2) v0 = vdot (vcross v0 v1) v2 := by
  simp only [vdot, vcross]; ring

theorem tripleProduct_cyclic₂ (v0 v1 v2 : Vec3) :
    vdot (vcross v2 v0) v1 = vdot (vcross v0 v1) v2 := by
  simp only [vdot, vcross]; ring

/-- The scalar heart of the bounding-cap argument: if the three Cramer
coefficients are bounded below by `-eps`, the vertex-query inner
products are at most one, and the vertex-center inner products lie in
`[m, 1]` with `0 ≤ m`, then the combination against the center
coordinates loses at most `12·eps` relative to `m·det`. -/
theorem capBound_scalar
    (k0 k1 k2 e0 e1 e2 d0 d1 d2 m eps det : ℝ)
    (hdet : 0 < det) (heps : 0 ≤ eps)
    (hdeteq : det = k0 * e0 + k1 * e1 + k2 * e2)
    (hk0 : -eps ≤ k0) (hk1 : -eps ≤ k1) (hk2 : -eps ≤ k2)
    (he0 : e0 ≤ 1) (he1 : e1 ≤ 1) (he2 : e2 ≤ 1)
    (he0n : -1 ≤ e0) (he1n : -1 ≤ e1) (he2n : -1 ≤ e2)
    (hd0 : m ≤ d0) (hd1 : m ≤ d1) (hd2 : m ≤ d2)
    (hd0u : d0 ≤ 1) (hd1u : d1 ≤ 1) (hd2u : d2 ≤ 1)
    (hm : 0 ≤ m) :
    m * det - 12 * eps ≤ k0 * d0 + k1 * d1 + k2 * d2 := by
  have hm1 : m ≤ 1 := le_trans hd0 hd0u
  have hp0 : 0 ≤ (k0 + eps) * (1 - e0) :=
    mul_nonneg (by linarith) (by linarith)
  have hp1 : 0 ≤ (k1 + eps) * (1 - e1) :=
    mul_nonneg (by linarith) (by linarith)
  have hp2 : 0 ≤ (k2 + eps) * (1 - e2) :=
    mul_nonneg (by linarith) (by linarith)
  have hsum : det - 6 * eps ≤ k0 + k1 + k2 := by nlinarith
  have hq0 : 0 ≤ (k0 + eps) * (d0 - m) :=
    mul_nonneg (by linarith) (by linarith)
  have hq1 : 0 ≤ (k1 + eps) * (d1 - m) :=
    mul_nonneg (by linarith) (by linarith)
  have hq2 : 0 ≤ (k2 + eps) * (d2 - m) :=
    mul_nonneg (by linarith) (by linarith)
  have hmd : m * (det - 6 * eps) ≤ m * (k0 + k1 + k2) :=
    mul_le_mul_of_nonneg_left hsum hm
  nlinarith [mul_nonneg hm heps]

theorem eps_nonneg : (0 : ℝ) ≤ INCLUSION_EPSILON := by
  simp only [INCLUSION_EPSILON]; norm_num

theorem mars_radius_nonneg : (0 : ℝ) ≤ MARS_RADIUS_M := by
  simp only [MARS_RADIUS_M]; norm_num

theorem vdot_xyzP0_self (s : TriSegment) : vdot s.xyzP0 s.xyzP0 = 1 :=
  vdot_unitOfRad_self _

theorem vdot_xyzP1_self (s : TriSegment) : vdot s.xyzP1 s.xyzP1 = 1 :=
  vdot_unitOfRad_self _

theorem vdot_xyzP2_self (s : TriSegment) : vdot s.xyzP2 s.xyzP2 = 1 :=
  vdot_unitOfRad_self _

theorem vdot_centerUnit_self {s : TriSegment} (h : s.xyzMean ≠ vzero) :
    vdot s.centerUnit s.centerUnit = 1 := by
  have hn : 0 < vnorm s.xyzMean := vnorm_pos h
  have h2 : vnorm s.xyzMean ^ 2 = vdot s.xyzMean s.xyzMean := sq_vnorm _
  simp only [TriSegment.centerUnit, vdot, vsmul]
  simp only [vdot] at h2
  field_simp
  nlinarith [h2]

/-- Value of `TriSegment.center` on a nondegenerate segment. -/
theorem center_eq_some {s : TriSegment} (h : s.xyzMean ≠ vzero) :
    s.center = some (xyz2latlonT s.xyzMean) := by
  have : vnorm s.xyzMean ≠ 0 := (vnorm_pos h).ne'
  simp [TriSegment.center, xyz2latlon, this]

/-- Value of `TriSegment.radius` on a nondegenerate segment equals the Mars
radius times the arc `arccos` of the minimum vertex-center inner
product. -/
theorem radius_eq_some {s : TriSegment} (h : s.xyzMean ≠ vzero) :
    s.radius = some (MARS_RADIUS_M * Real.arccos s.minCenterDot) := by
  rw [TriSegment.radius, center_eq_some h, Option.map_some']
  congr 1
  have hunit : unitOfRad (deg2radLL (xyz2latlonT s.xyzMean)) = s.centerUnit :=
    unitOfRad_xyz2latlonT h
  simp only [TriSegment.latlonPoints, List.map_cons, List.map_nil]
  rw [geodesic_distance_eq_arccos, geodesic_distance_eq_arccos,
    geodesic_distance_eq_arccos, hunit]
  have h0 : unitOfRad (deg2radLL s.latlon0) = s.xyzP0 := rfl
  have h1 : unitOfRad (deg2radLL s.latlon1) = s.xyzP1 := rfl
  have h2 : unitOfRad (deg2radLL s.latlon2) = s.xyzP2 := rfl
  rw [h0, h1, h2, npMax_three,
    mul_max_nonneg _ _ _ mars_radius_nonneg, mul_max_nonneg _ _ _ mars_radius_nonneg,
    max_arccos_eq_arccos_min, max_arccos_eq_arccos_min]
  rw [TriSegment.minCenterDot,
    vdot_comm s.xyzP0 s.centerUnit, vdot_comm s.xyzP1 s.centerUnit,
    vdot_comm s.xyzP2 s.centerUnit]

theorem vdot_vzero_left (b : Vec3) : vdot vzero b = 0 := by
  simp [vdot, vzero]

theorem xyzMean_ne_of_center {s : TriSegment} {c : ℝ × ℝ}
    (hc : s.center = some c) : s.xyzMean ≠ vzero := by
  intro h
  rw [TriSegment.center, xyz2latlon] at hc
  rw [(vnorm_eq_zero_iff s.xyzMean).mpr h] at hc
  simp at hc

set_option maxHeartbeats 1600000 in
/-- C1 (amended), contrapositive form: for a counter-clockwise
nondegenerate segment (`0 < tripleProduct`) whose vertices lie within 90
degrees of its center (`0 ≤ minCenterDot`), any unit vector accepted by
`is_inside` lies within `radius_m` plus an `INCLUSION_EPSILON`-dependent
slack of the center; consequently pruning at
`radius_m + slack` is sound, while pruning at exactly `radius_m` is not
(see the counterexample). -/
theorem c1_isInside_within_radius (s : TriSegment) (p : Vec3) (c : ℝ × ℝ) (r : ℝ)
    (hc : s.center = some c) (hr : s.radius = some r)
    (hdet : 0 < s.tripleProduct)
    (hm : 0 ≤ s.minCenterDot)
    (hp : vdot p p = 1)
    (hin : s.isInside p) :
    geodesic_distance (deg2radLL (xyz2latlonT p)) (deg2radLL c) ≤
      r + MARS_RADIUS_M *
        (Real.arccos (s.minCenterDot - 12 * INCLUSION_EPSILON / s.tripleProduct) -
          Real.arccos s.minCenterDot) := by
  have hmean : s.xyzMean ≠ vzero := xyzMean_ne_of_center hc
  have hceq : c = xyz2latlonT s.xyzMean := by
    have := center_eq_some hmean
    rw [hc] at this
    exact (Option.some.injEq _ _).mp this.symm |>.symm
  have hreq : r = MARS_RADIUS_M * Real.arccos s.minCenterDot := by
    have := radius_eq_some hmean
    rw [hr] at this
    exact (Option.some.injEq _ _).mp this.symm |>.symm
  -- Notation for the vertices, normal data, and center.
  set v0 : Vec3 := s.xyzP0 with hv0
  set v1 : Vec3 := s.xyzP1 with hv1
  set v2 : Vec3 := s.xyzP2 with hv2
  set cu : Vec3 := s.centerUnit with hcu
  set dt : ℝ := s.tripleProduct with hdt
  set m : ℝ := s.minCenterDot with hmdef
  set ε : ℝ := INCLUSION_EPSILON with hεdef
  have hε : 0 ≤ ε := eps_nonneg
  have huv0 : vdot v0 v0 = 1 := vdot_xyzP0_self s
  have huv1 : vdot v1 v1 = 1 := vdot_xyzP1_self s
  have huv2 : vdot v2 v2 = 1 := vdot_xyzP2_self s
  have hucu : vdot cu cu = 1 := vdot_centerUnit_self hmean
  -- The three inclusion inequalities from `is_inside`.
  have hin0 : -ε ≤ vdot (nmlz (vcross v0 v1)) p := by
    apply hin; simp [TriSegment.normalsList, hv0, hv1]
  have hin1 : -ε ≤ vdot (nmlz (vcross v1 v2)) p := by
    apply hin; simp [TriSegment.normalsList, hv1, hv2]
  have hin2 : -ε ≤ vdot (nmlz (vcross v2 v0)) p := by
    apply hin; simp [TriSegment.normalsList, hv2, hv0]
  -- The edge normals are nonzero because the triple product is positive.
  have hdt0 : dt = vdot (vcross v0 v1) v2 := rfl
  have hw0ne : vcross v0 v1 ≠ vzero := by
    intro h
    have hz : dt = 0 := by rw [hdt0, h, vdot_vzero_left]
    exact lt_irrefl 0 (hz ▸ hdet)
  have hw1ne : vcross v1 v2 ≠ vzero := by
    intro h
    have hcyc := tripleProduct_cyclic₁ v0 v1 v2
    rw [h, vdot_vzero_left] at hcyc
    have hz : dt = 0 := by rw [hdt0, ← hcyc]
    exact lt_irrefl 0 (hz ▸ hdet)
  have hw2ne : vcross v2 v0 ≠ vzero := by
    intro h
    have hcyc := tripleProduct_cyclic₂ v0 v1 v2
    rw [h, vdot_vzero_left] at hcyc
    have hz : dt = 0 := by rw [hdt0, ← hcyc]
    exact lt_irrefl 0 (hz ▸ hdet)
  -- Lower bounds on the raw Cramer coefficients.
  have kbound : ∀ w : Vec3, w ≠ vzero → vnorm w ≤ 1 →
      -ε ≤ vdot (nmlz w) p → -ε ≤ vdot w p := by
    intro w hne hle hnm
    rw [vdot_nmlz_left] at hnm
    have hpos : 0 < vnorm w := vnorm_pos hne
    have h1 : -ε * vnorm w ≤ vdot w p := by
      have := (le_div_iff hpos).mp hnm
      linarith [this]
    have h2 : -ε ≤ -ε * vnorm w := by nlinarith
    linarith
  have hk2 : -ε ≤ vdot (vcross v0 v1) p :=
    kbound _ hw0ne (vnorm_vcross_le_one huv0 huv1) hin0
  have hk0 : -ε ≤ vdot (vcross v1 v2) p :=
    kbound _ hw1ne (vnorm_vcross_le_one huv1 huv2) hin1
  have hk1 : -ε ≤ vdot (vcross v2 v0) p :=
    kbound _ hw2ne (vnorm_vcross_le_one huv2 huv0) hin2
  -- Cramer decomposition dotted with `p` and with the center unit.
  have hcram := cramer_identity v0 v1 v2 p
  have hdotp : vdot (vcross v1 v2) p * vdot v0 p + vdot (vcross v2 v0) p * vdot v1 p +
      vdot (vcross v0 v1) p * vdot v2 p = dt := by
    have := congrArg (fun w => vdot w p) hcram
    simp only [vdot_vadd_left, vdot_vsmul_left] at this
    rw [hp] at this
    rw [hdt0]
    linarith [this]
  have hdotc : vdot (vcross v1 v2) p * vdot v0 cu + vdot (vcross v2 v0) p * vdot v1 cu +
      vdot (vcross v0 v1) p * vdot v2 cu = dt * vdot p cu := by
    have := congrArg (fun w => vdot w cu) hcram
    simp only [vdot_vadd_left, vdot_vsmul_left] at this
    rw [hdt0]
    linarith [this]
  -- Inner-product bounds for the vertices.
  have he0 : vdot v0 p ≤ 1 := vdot_le_one huv0 hp
  have he1 : vdot v1 p ≤ 1 := vdot_le_one huv1 hp
  have he2 : vdot v2 p ≤ 1 := vdot_le_one huv2 hp
  have he0n : -1 ≤ vdot v0 p := neg_one_le_vdot huv0 hp
  have he1n : -1 ≤ vdot v1 p := neg_one_le_vdot huv1 hp
  have he2n : -1 ≤ vdot v2 p := neg_one_le_vdot huv2 hp
  have hmd : m = min (vdot v0 cu) (min (vdot v1 cu) (vdot v2 cu)) := rfl
  have hd0 : m ≤ vdot v0 cu := by rw [hmd]; exact min_le_left _ _
  have hd1 : m ≤ vdot v1 cu := by
    rw [hmd]; exact le_trans (min_le_right _ _) (min_le_left _ _)
  have hd2 : m ≤ vdot v2 cu := by
    rw [hmd]; exact le_trans (min_le_right _ _) (min_le_right _ _)
  have hd0u : vdot v0 cu ≤ 1 := vdot_le_one huv0 hucu
  have hd1u : vdot v1 cu ≤ 1 := vdot_le_one huv1 hucu
  have hd2u : vdot v2 cu ≤ 1 := vdot_le_one huv2 hucu
  -- The scalar bound.
  have hkey : m * dt - 12 * ε ≤ dt * vdot p cu := by
    rw [← hdotc]
    exact capBound_scalar _ _ _ _ _ _ _ _ _ _ _ _ hdet hε hdotp.symm
      hk0 hk1 hk2 he0 he1 he2 he0n he1n he2n hd0 hd1 hd2 hd0u hd1u hd2u hm
  have hdiv : m - 12 * ε / dt ≤ vdot p cu := by
    have h2 : (m * dt - 12 * ε) / dt ≤ vdot p cu := by
      rw [div_le_iff hdet]
      nlinarith [hkey]
    have h3 : (m * dt - 12 * ε) / dt = m - 12 * ε / dt := by
      field_simp
    linarith [h3 ▸ h2]
  -- Convert the geodesic distance to an angle at the center.
  have hpne : p ≠ vzero := by
    intro h
    rw [h, vdot_vzero_left] at hp
    norm_num at hp
  have hnp : vnorm p = 1 := by
    rw [vnorm, hp, Real.sqrt_one]
  have hpunit : unitOfRad (deg2radLL (xyz2latlonT p)) = p := by
    rw [unitOfRad_xyz2latlonT hpne, hnp]
    obtain ⟨px, py, pz⟩ := p
    simp [vsmul]
  have hcunit : unitOfRad (deg2radLL c) = cu := by
    rw [hceq]
    exact unitOfRad_xyz2latlonT hmean
  rw [geodesic_distance_eq_arccos, hpunit, hcunit, hreq]
  have harc : Real.arccos (vdot p cu) ≤ Real.arccos (m - 12 * ε / dt) :=
    arccos_antitone hdiv
  nlinarith [mul_le_mul_of_nonneg_left harc mars_radius_nonneg]

-- The scenario-S1 triangle ((0,0), (0,90), (90,0)) and its derived data.

noncomputable section

/-- The triangle of scenario S1: vertices (0,0), (0,90), (90,0) in
(lat, lon) degrees. -/
def sS1 : TriSegment := ⟨(0, 0), (0, 90), (90, 0)⟩

end

theorem deg2rad_zero : deg2rad 0 = 0 := by simp [deg2rad]

theorem deg2rad_ninety : deg2rad 90 = π / 2 := by rw [deg2rad]; ring

theorem deg2rad_oneeighty : deg2rad 180 = π := by rw [deg2rad]; field_simp

theorem sS1_xyzP0 : sS1.xyzP0 = ⟨1, 0, 0⟩ := by
  simp [sS1, TriSegment.xyzP0, latlon2unit, unitOfRad, deg2radLL, deg2rad_zero]

theorem sS1_xyzP1 : sS1.xyzP1 = ⟨0, 1, 0⟩ := by
  simp [sS1, TriSegment.xyzP1, latlon2unit, unitOfRad, deg2radLL, deg2rad_zero,
    deg2rad_ninety]

theorem sS1_xyzP2 : sS1.xyzP2 = ⟨0, 0, 1⟩ := by
  simp [sS1, TriSegment.xyzP2, latlon2unit, unitOfRad, deg2radLL, deg2rad_zero,
    deg2rad_ninety]

theorem sS1_mean : sS1.xyzMean = ⟨1/3, 1/3, 1/3⟩ := by
  rw [TriSegment.xyzMean, sS1_xyzP0, sS1_xyzP1, sS1_xyzP2]
  simp [vadd, vsmul]

theorem sS1_mean_ne : sS1.xyzMean ≠ vzero := by
  rw [sS1_mean]
  simp only [vzero, ne_eq, Vec3.mk.injEq, not_and]
  norm_num

theorem sqrt_third : Real.sqrt (1/3) = Real.sqrt 3 / 3 := by
  rw [show (1:ℝ)/3 = (Real.sqrt 3 / 3)^2 by
    rw [div_pow, Real.sq_sqrt (by norm_num : (0:ℝ) ≤ 3)]; norm_num]
  exact Real.sqrt_sq (by positivity)

theorem sqrt3_pos : 0 < Real.sqrt 3 := Real.sqrt_pos.mpr (by norm_num)

theorem vnorm_sS1_mean : vnorm sS1.xyzMean = Real.sqrt 3 / 3 := by
  rw [sS1_mean, vnorm]
  rw [show vdot ⟨1/3, 1/3, 1/3⟩ ⟨1/3, 1/3, 1/3⟩ = 1/3 by simp [vdot]; norm_num]
  exact sqrt_third

theorem sS1_centerUnit : sS1.centerUnit = ⟨Real.sqrt 3 / 3, Real.sqrt 3 / 3, Real.sqrt 3 / 3⟩ := by
  rw [TriSegment.centerUnit, vnorm_sS1_mean, sS1_mean]
  have hs : Real.sqrt 3 * Real.sqrt 3 = 3 := Real.mul_self_sqrt (by norm_num)
  have hne : Real.sqrt 3 ≠ 0 := sqrt3_pos.ne'
  simp only [vsmul, Vec3.mk.injEq]
  have hcomp : 1 / (Real.sqrt 3 / 3) * (1 / 3) = Real.sqrt 3 / 3 := by
    field_simp
  exact ⟨hcomp, hcomp, hcomp⟩

theorem sS1_minCenterDot : sS1.minCenterDot = Real.sqrt 3 / 3 := by
  rw [TriSegment.minCenterDot, sS1_xyzP0, sS1_xyzP1, sS1_xyzP2, sS1_centerUnit]
  simp [vdot, min_self]

theorem sS1_tripleProduct : sS1.tripleProduct = 1 := by
  rw [TriSegment.tripleProduct, sS1_xyzP0, sS1_xyzP1, sS1_xyzP2]
  simp [vcross, vdot]

theorem sS1_normalsList :
    sS1.normalsList = [⟨0, 0, 1⟩, ⟨1, 0, 0⟩, ⟨0, 1, 0⟩] := by
  rw [TriSegment.normalsList, sS1_xyzP0, sS1_xyzP1, sS1_xyzP2]
  have h1 : vcross ⟨1, 0, 0⟩ ⟨0, 1, 0⟩ = ⟨0, 0, 1⟩ := by simp [vcross]
  have h2 : vcross ⟨0, 1, 0⟩ ⟨0, 0, 1⟩ = ⟨1, 0, 0⟩ := by simp [vcross]
  have h3 : vcross ⟨0, 0, 1⟩ ⟨1, 0, 0⟩ = ⟨0, 1, 0⟩ := by simp [vcross]
  rw [h1, h2, h3]
  have hn1 : vnorm ⟨0, 0, 1⟩ = 1 := by
    simp [vnorm, vdot]
  have hn2 : vnorm ⟨1, 0, 0⟩ = 1 := by
    simp [vnorm, vdot]
  have hn3 : vnorm ⟨0, 1, 0⟩ = 1 := by
    simp [vnorm, vdot]
  simp [nmlz, hn1, hn2, hn3, vsmul]

theorem sS1_center : sS1.center = some (xyz2latlonT ⟨1/3, 1/3, 1/3⟩) := by
  rw [center_eq_some sS1_mean_ne, sS1_mean]

theorem sS1_radius :
    sS1.radius = some (MARS_RADIUS_M * Real.arccos (Real.sqrt 3 / 3)) := by
  rw [radius_eq_some sS1_mean_ne, sS1_minCenterDot]

theorem eps_pos : (0 : ℝ) < INCLUSION_EPSILON := by
  simp only [INCLUSION_EPSILON]; norm_num

theorem mars_radius_pos : (0 : ℝ) < MARS_RADIUS_M := by
  simp only [MARS_RADIUS_M]; norm_num

theorem sqrt3_le_three : Real.sqrt 3 ≤ 3 := by
  have h9 : Real.sqrt 9 = 3 := by
    rw [show (9:ℝ) = 3^2 by norm_num, Real.sqrt_sq (by norm_num : (0:ℝ) ≤ 3)]
  calc Real.sqrt 3 ≤ Real.sqrt 9 := Real.sqrt_le_sqrt (by norm_num)
  _ = 3 := h9

/-- Witness instantiation for `c1_isInside_within_radius`: the center
direction of the S1 triangle is inside it, and its geodesic distance to
the segment center is within the radius plus the epsilon slack. -/
theorem c1_isInside_within_radius_witness :
    geodesic_distance
        (deg2radLL (xyz2latlonT ⟨Real.sqrt 3 / 3, Real.sqrt 3 / 3, Real.sqrt 3 / 3⟩))
        (deg2radLL (xyz2latlonT ⟨1/3, 1/3, 1/3⟩)) ≤
      MARS_RADIUS_M * Real.arccos (Real.sqrt 3 / 3) + MARS_RADIUS_M *
        (Real.arccos (sS1.minCenterDot - 12 * INCLUSION_EPSILON / sS1.tripleProduct) -
          Real.arccos sS1.minCenterDot) := by
  have hs : Real.sqrt 3 * Real.sqrt 3 = 3 := Real.mul_self_sqrt (by norm_num)
  refine c1_isInside_within_radius sS1 ⟨Real.sqrt 3 / 3, Real.sqrt 3 / 3, Real.sqrt 3 / 3⟩
    (xyz2latlonT ⟨1/3, 1/3, 1/3⟩) (MARS_RADIUS_M * Real.arccos (Real.sqrt 3 / 3))
    sS1_center sS1_radius ?_ ?_ ?_ ?_
  · rw [sS1_tripleProduct]; norm_num
  · rw [sS1_minCenterDot]; positivity
  · simp only [vdot]
    nlinarith [hs]
  · intro n hn
    rw [sS1_normalsList] at hn
    have hnn : (0:ℝ) ≤ Real.sqrt 3 / 3 := by positivity
    have hε := eps_pos
    simp only [List.mem_cons, List.mem_singleton, List.not_mem_nil, or_false] at hn
    rcases hn with h | h | h <;> · subst h; simp only [vdot]; nlinarith

/-- C1 counterexample: for the CCW triangle S1 and the unit point
`(√(1−ε²/2), −ε/2, −ε/2)` with `ε = INCLUSION_EPSILON`, `is_inside`
holds although the geodesic distance from the point to the segment
center strictly exceeds the segment radius — the claim's pruning rule
with zero slack would drop a point the inclusion test accepts. -/
theorem c1_counterexample :
    vdot ⟨Real.sqrt (1 - INCLUSION_EPSILON^2/2),
          -(INCLUSION_EPSILON/2), -(INCLUSION_EPSILON/2)⟩
      (⟨Real.sqrt (1 - INCLUSION_EPSILON^2/2),
          -(INCLUSION_EPSILON/2), -(INCLUSION_EPSILON/2)⟩ : Vec3) = 1 ∧
    sS1.isInside ⟨Real.sqrt (1 - INCLUSION_EPSILON^2/2),
          -(INCLUSION_EPSILON/2), -(INCLUSION_EPSILON/2)⟩ ∧
    sS1.center = some (xyz2latlonT ⟨1/3, 1/3, 1/3⟩) ∧
    sS1.radius = some (MARS_RADIUS_M * Real.arccos (Real.sqrt 3 / 3)) ∧
    MARS_RADIUS_M * Real.arccos (Real.sqrt 3 / 3) <
      geodesic_distance
        (deg2radLL (xyz2latlonT ⟨Real.sqrt (1 - INCLUSION_EPSILON^2/2),
          -(INCLUSION_EPSILON/2), -(INCLUSION_EPSILON/2)⟩))
        (deg2radLL (xyz2latlonT ⟨1/3, 1/3, 1/3⟩)) := by
  set ε : ℝ := INCLUSION_EPSILON with hεdef
  have hε : 0 < ε := eps_pos
  have hε1 : ε ≤ 1 := by rw [hεdef]; simp only [INCLUSION_EPSILON]; norm_num
  have hsub : (0:ℝ) ≤ 1 - ε^2/2 := by rw [hεdef]; simp only [INCLUSION_EPSILON]; norm_num
  set p : Vec3 := ⟨Real.sqrt (1 - ε^2/2), -(ε/2), -(ε/2)⟩ with hpdef
  have hsq : Real.sqrt (1 - ε^2/2) ^ 2 = 1 - ε^2/2 := Real.sq_sqrt hsub
  have hsnn : 0 ≤ Real.sqrt (1 - ε^2/2) := Real.sqrt_nonneg _
  have hunit : vdot p p = 1 := by
    simp only [hpdef, vdot]
    nlinarith [hsq]
  have hinside : sS1.isInside p := by
    intro n hn
    rw [sS1_normalsList] at hn
    simp only [List.mem_cons, List.mem_singleton, List.not_mem_nil, or_false] at hn
    rcases hn with h | h | h <;> · subst h; simp only [hpdef, vdot]; nlinarith
  refine ⟨hunit, hinside, sS1_center, sS1_radius, ?_⟩
  -- Convert the distance to an angle.
  have hpne : p ≠ vzero := by
    intro h
    rw [h, vdot_vzero_left] at hunit
    norm_num at hunit
  have hnp : vnorm p = 1 := by rw [vnorm, hunit, Real.sqrt_one]
  have hpunit : unitOfRad (deg2radLL (xyz2latlonT p)) = p := by
    rw [unitOfRad_xyz2latlonT hpne, hnp]
    simp [hpdef, vsmul]
  have hcunit : unitOfRad (deg2radLL (xyz2latlonT ⟨1/3, 1/3, 1/3⟩)) =
      (⟨Real.sqrt 3 / 3, Real.sqrt 3 / 3, Real.sqrt 3 / 3⟩ : Vec3) := by
    have h1 : sS1.xyzMean = ⟨1/3, 1/3, 1/3⟩ := sS1_mean
    have h2 := unitOfRad_xyz2latlonT sS1_mean_ne
    rw [h1] at h2
    rw [h2, ← h1]
    rw [show vsmul (1 / vnorm sS1.xyzMean) sS1.xyzMean = sS1.centerUnit from rfl]
    exact sS1_centerUnit
  rw [geodesic_distance_eq_arccos, hpunit, hcunit]
  -- Compare the angles.
  set s3 : ℝ := Real.sqrt 3 / 3 with hs3
  have hs3pos : 0 < s3 := by rw [hs3]; positivity
  have hs3le : s3 ≤ 1 := by
    rw [hs3]; linarith [sqrt3_le_three]
  have hdotval : vdot p ⟨s3, s3, s3⟩ = s3 * (Real.sqrt (1 - ε^2/2) - ε) := by
    simp only [hpdef, vdot]
    ring
  have hlt : vdot p ⟨s3, s3, s3⟩ < s3 := by
    rw [hdotval]
    have hle1 : Real.sqrt (1 - ε^2/2) ≤ 1 := by
      calc Real.sqrt (1 - ε^2/2) ≤ Real.sqrt 1 := Real.sqrt_le_sqrt (by nlinarith)
      _ = 1 := Real.sqrt_one
    nlinarith
  have hge : -1 ≤ vdot p ⟨s3, s3, s3⟩ := by
    rw [hdotval]
    nlinarith
  have harc : Real.arccos s3 < Real.arccos (vdot p ⟨s3, s3, s3⟩) := by
    have hmem1 : vdot p ⟨s3, s3, s3⟩ ∈ Set.Icc (-1 : ℝ) 1 := by
      constructor
      · exact hge
      · nlinarith [hlt, hs3le]
    have hmem2 : s3 ∈ Set.Icc (-1 : ℝ) 1 := by
      constructor <;> nlinarith
    exact Real.strictAntiOn_arccos hmem1 hmem2 hlt
  nlinarith [mars_radius_pos, harc]

theorem rad2deg_zero : rad2deg 0 = 0 := by simp [rad2deg]

theorem notInside_sS1_negx : ¬ sS1.isInside ⟨-1, 0, 0⟩ := by
  intro h
  have hm : (⟨1, 0, 0⟩ : Vec3) ∈ sS1.normalsList := by
    rw [sS1_normalsList]; simp
  have hle := h _ hm
  simp only [vdot, INCLUSION_EPSILON] at hle
  norm_num at hle

theorem vnorm_negx : vnorm ⟨-1, 0, 0⟩ = 1 := by
  simp only [vnorm, vdot]
  norm_num

open Classical in
/-- The distance computation of scenario S1: the candidate latlon points
reduce to the three corners (every edge-plane projection of `(-1,0,0)`
is either zero or outside the triangle), and the minimum geodesic
distance is a quarter of the great circle. -/
theorem distance_sS1_negx :
    sS1.distanceToPoint ⟨-1, 0, 0⟩ = π * MARS_RADIUS_M / 2 := by
  have hnot := notInside_sS1_negx
  rw [TriSegment.distanceToPoint, if_neg hnot]
  -- Evaluate the edge-plane projections of the query point.
  have hproj : sS1.normalsList.map
      (fun n => vsub (⟨-1, 0, 0⟩ : Vec3) (vsmul (vdot n ⟨-1, 0, 0⟩) n)) =
      [⟨-1, 0, 0⟩, ⟨0, 0, 0⟩, ⟨-1, 0, 0⟩] := by
    rw [sS1_normalsList]
    simp only [List.map_cons, List.map_nil, vdot, vsub, vsmul]
    norm_num
  rw [hproj]
  -- None of the projections is retained.
  have hg1 : (if ((⟨-1, 0, 0⟩ : Vec3).x + (⟨-1, 0, 0⟩ : Vec3).y + (⟨-1, 0, 0⟩ : Vec3).z ≠ 0 ∧
      sS1.isInside ⟨-1, 0, 0⟩) then some (xyz2latlonT ⟨-1, 0, 0⟩) else none) = none :=
    if_neg (fun h => hnot h.2)
  have hg2 : (if ((⟨0, 0, 0⟩ : Vec3).x + (⟨0, 0, 0⟩ : Vec3).y + (⟨0, 0, 0⟩ : Vec3).z ≠ 0 ∧
      sS1.isInside ⟨0, 0, 0⟩) then some (xyz2latlonT ⟨0, 0, 0⟩) else none) = none := by
    refine if_neg (fun h => h.1 ?_)
    norm_num
  simp only [List.filterMap_cons, hg1, hg2, List.filterMap_nil, List.append_nil]
  -- Convert the three corner distances to central angles.
  have hpne : (⟨-1, 0, 0⟩ : Vec3) ≠ vzero := by
    intro h
    have := congrArg Vec3.x h
    simp [vzero] at this
  have hpunit : unitOfRad (deg2radLL (xyz2latlonT ⟨-1, 0, 0⟩)) = ⟨-1, 0, 0⟩ := by
    rw [unitOfRad_xyz2latlonT hpne, vnorm_negx]
    simp [vsmul]
  have hd0 : geodesic_distance (deg2radLL (xyz2latlonT ⟨-1, 0, 0⟩))
      (deg2radLL (0, 0)) = MARS_RADIUS_M * π := by
    rw [geodesic_distance_eq_arccos, hpunit]
    rw [show unitOfRad (deg2radLL (0, 0)) = latlon2unit ((0 : ℝ), (0 : ℝ)) from rfl]
    rw [show latlon2unit ((0 : ℝ), (0 : ℝ)) = sS1.xyzP0 from rfl, sS1_xyzP0]
    rw [show vdot ⟨-1, 0, 0⟩ ⟨1, 0, 0⟩ = -1 by simp [vdot]]
    rw [Real.arccos_neg_one]
  have hd1 : geodesic_distance (deg2radLL (xyz2latlonT ⟨-1, 0, 0⟩))
      (deg2radLL (0, 90)) = MARS_RADIUS_M * (π / 2) := by
    rw [geodesic_distance_eq_arccos, hpunit]
    rw [show unitOfRad (deg2radLL (0, 90)) = latlon2unit ((0 : ℝ), (90 : ℝ)) from rfl]
    rw [show latlon2unit ((0 : ℝ), (90 : ℝ)) = sS1.xyzP1 from rfl, sS1_xyzP1]
    rw [show vdot ⟨-1, 0, 0⟩ ⟨0, 1, 0⟩ = 0 by simp [vdot]]
    rw [Real.arccos_zero]
  have hd2 : geodesic_distance (deg2radLL (xyz2latlonT ⟨-1, 0, 0⟩))
      (deg2radLL (90, 0)) = MARS_RADIUS_M * (π / 2) := by
    rw [geodesic_distance_eq_arccos, hpunit]
    rw [show unitOfRad (deg2radLL (90, 0)) = latlon2unit ((90 : ℝ), (0 : ℝ)) from rfl]
    rw [show latlon2unit ((90 : ℝ), (0 : ℝ)) = sS1.xyzP2 from rfl, sS1_xyzP2]
    rw [show vdot ⟨-1, 0, 0⟩ ⟨0, 0, 1⟩ = 0 by simp [vdot]]
    rw [Real.arccos_zero]
  show npMin (List.map _ sS1.latlonPoints) = π * MARS_RADIUS_M / 2
  rw [show sS1.latlonPoints = [((0:ℝ), (0:ℝ)), ((0:ℝ), (90:ℝ)), ((90:ℝ), (0:ℝ))] from rfl]
  simp only [List.map_cons, List.map_nil]
  rw [hd0, hd1, hd2, npMin_three, min_self]
  rw [min_eq_right (by nlinarith [Real.pi_pos, mars_radius_pos])]
  ring

-- C9: the PointQuery constructor.

/-- C9: `PointQuery(lat, lon, radius)` raises exactly when `radius < 0`
or `lat` lies outside `[-90, 90]` (any longitude is accepted), and every
accepted query's `xyz` is `latlon2unit(lat, lon)`; in particular
`PointQuery(0, 0, 0).xyz = (1, 0, 0)` and
`PointQuery(0, 180, 0).xyz = (-1, 0, 0)`. -/
theorem c9_pointQuery_constructor (lat lon radius : ℝ) :
    (mkPointQuery lat lon radius = none ↔ (radius < 0 ∨ lat < -90 ∨ 90 < lat)) ∧
    (∀ q : PointQuery, mkPointQuery lat lon radius = some q →
      q.xyz = latlon2unit (lat, lon)) ∧
    (mkPointQuery 0 0 0).map PointQuery.xyz = some ⟨1, 0, 0⟩ ∧
    (mkPointQuery 0 180 0).map PointQuery.xyz = some ⟨-1, 0, 0⟩ := by
  refine ⟨?_, ?_, ?_, ?_⟩
  · rw [mkPointQuery]
    split_ifs with h1 h2
    · simp [h1]
    · simp [h1, h2]
    · simp only [reduceCtorEq, false_iff]
      push_neg
      push_neg at h2
      exact ⟨le_of_not_lt h1, h2⟩
  · intro q hq
    rw [mkPointQuery] at hq
    split_ifs at hq
    injection hq with hq
    rw [← hq]
    rfl
  · rw [show mkPointQuery 0 0 0 = some ⟨0, 0, 0⟩ by
      rw [mkPointQuery]; norm_num]
    rw [Option.map_some']
    rw [show PointQuery.xyz ⟨0, 0, 0⟩ = latlon2unit (0, 0) from rfl]
    simp [latlon2unit, unitOfRad, deg2radLL, deg2rad_zero]
  · rw [show mkPointQuery 0 180 0 = some ⟨0, 180, 0⟩ by
      rw [mkPointQuery]; norm_num]
    rw [Option.map_some']
    rw [show PointQuery.xyz ⟨0, 180, 0⟩ = latlon2unit (0, 180) from rfl]
    simp [latlon2unit, unitOfRad, deg2radLL, deg2rad_zero, deg2rad_oneeighty]

/-- Witness for C9 at `(lat, lon, radius) = (0, 0, 0)`: the constructor
succeeds and the accepted query's `xyz` is `latlon2unit (0, 0)`. -/
theorem c9_pointQuery_constructor_witness :
    PointQuery.xyz ⟨0, 0, 0⟩ = latlon2unit (0, 0) := by
  refine (c9_pointQuery_constructor 0 0 0).2.1 ⟨0, 0, 0⟩ ?_
  rw [mkPointQuery]
  norm_num

-- C7: xyz2latlon.

/-- C7: `xyz2latlon p` fails exactly when `‖p‖ = 0`; for every other
input it returns `(asin(z/‖p‖), atan2(y, x))` converted to degrees, and
the returned longitude lies in `(-180, 180]`. -/
theorem c7_xyz2latlon_spec (v : Vec3) :
    (xyz2latlon v = none ↔ vnorm v = 0) ∧
    (∀ lat lon : ℝ, xyz2latlon v = some (lat, lon) →
      lat = rad2deg (Real.arcsin (v.z / vnorm v)) ∧
      lon = rad2deg (arctan2 (v.y / vnorm v) (v.x / vnorm v)) ∧
      -180 < lon ∧ lon ≤ 180) := by
  constructor
  · rw [xyz2latlon]
    split_ifs with h
    · simp [h]
    · simp [h]
  · intro lat lon hsome
    rw [xyz2latlon] at hsome
    split_ifs at hsome
    injection hsome with hsome
    have hlat : lat = rad2deg (Real.arcsin (v.z / vnorm v)) := by
      have := congrArg Prod.fst hsome
      simp [xyz2latlonT] at this
      exact this.symm
    have hlon : lon = rad2deg (arctan2 (v.y / vnorm v) (v.x / vnorm v)) := by
      have := congrArg Prod.snd hsome
      simp [xyz2latlonT] at this
      exact this.symm
    refine ⟨hlat, hlon, ?_, ?_⟩
    · rw [hlon, rad2deg, arctan2]
      have harg := Complex.neg_pi_lt_arg ⟨v.x / vnorm v, v.y / vnorm v⟩
      rw [lt_div_iff Real.pi_pos]
      nlinarith [harg, Real.pi_pos]
    · rw [hlon, rad2deg, arctan2]
      have harg := Complex.arg_le_pi ⟨v.x / vnorm v, v.y / vnorm v⟩
      rw [div_le_iff Real.pi_pos]
      nlinarith [harg, Real.pi_pos]

theorem xyz2latlon_e1 : xyz2latlon ⟨1, 0, 0⟩ = some ((xyz2latlonT ⟨1, 0, 0⟩).1, (xyz2latlonT ⟨1, 0, 0⟩).2) := by
  have hn : vnorm (⟨1, 0, 0⟩ : Vec3) ≠ 0 := by
    rw [show vnorm ⟨1, 0, 0⟩ = 1 by simp [vnorm, vdot]]
    norm_num
  rw [xyz2latlon, if_neg hn]

/-- Witness for C7 at `p = (1, 0, 0)`: the conversion succeeds and the
returned longitude lies in `(-180, 180]`. -/
theorem c7_xyz2latlon_spec_witness :
    -180 < (xyz2latlonT (⟨1, 0, 0⟩ : Vec3)).2 ∧ (xyz2latlonT (⟨1, 0, 0⟩ : Vec3)).2 ≤ 180 := by
  have h := (c7_xyz2latlon_spec ⟨1, 0, 0⟩).2
    (xyz2latlonT ⟨1, 0, 0⟩).1 (xyz2latlonT ⟨1, 0, 0⟩).2 xyz2latlon_e1
  exact ⟨h.2.2.1, h.2.2.2⟩

-- C10: latlon2unit / xyz2latlon round trip.

/-- General round-trip fact: for latitude strictly between the poles
and longitude in `(-180, 180]`, `xyz2latlon` inverts `latlon2unit`. -/
theorem latlon2unit_roundtrip (lat lon : ℝ)
    (h1 : -90 < lat) (h2 : lat < 90) (h3 : -180 < lon) (h4 : lon ≤ 180) :
    xyz2latlon (latlon2unit (lat, lon)) = some (lat, lon) := by
  have hnorm : vnorm (latlon2unit (lat, lon)) = 1 := vnorm_unitOfRad _
  rw [xyz2latlon, if_neg (by rw [hnorm]; norm_num)]
  congr 1
  set φ : ℝ := deg2rad lat with hφ
  set lr : ℝ := deg2rad lon with hlr
  have hπ := Real.pi_pos
  have hφ1 : -(π/2) < φ := by
    rw [hφ, deg2rad]
    nlinarith
  have hφ2 : φ < π/2 := by
    rw [hφ, deg2rad]
    nlinarith
  have hlr1 : -π < lr := by
    rw [hlr, deg2rad]
    nlinarith
  have hlr2 : lr ≤ π := by
    rw [hlr, deg2rad]
    nlinarith
  have hcosφ : 0 < Real.cos φ :=
    Real.cos_pos_of_mem_Ioo ⟨by linarith, hφ2⟩
  have hu : latlon2unit (lat, lon) = unitOfRad (φ, lr) := rfl
  rw [hu, xyz2latlonT, vnorm_unitOfRad]
  simp only [unitOfRad, div_one]
  have hz : Real.arcsin (Real.sin φ) = φ :=
    Real.arcsin_sin (by linarith) (by linarith)
  have hc : (⟨Real.cos φ * Real.cos lr, Real.cos φ * Real.sin lr⟩ : ℂ) =
      (Real.cos φ : ℂ) * (Real.cos lr + Real.sin lr * Complex.I) := by
    apply Complex.ext <;>
      simp [Complex.cos_ofReal_re, Complex.sin_ofReal_re, Complex.cos_ofReal_im,
        Complex.sin_ofReal_im, ← Complex.ofReal_cos, ← Complex.ofReal_sin]
  have harg : arctan2 (Real.cos φ * Real.sin lr) (Real.cos φ * Real.cos lr) = lr := by
    rw [arctan2, hc, Complex.arg_real_mul _ hcosφ, Complex.ofReal_cos,
      Complex.ofReal_sin, Complex.arg_cos_add_sin_mul_I ⟨hlr1, hlr2⟩]
  rw [hz, harg, hφ, hlr, rad2deg_deg2rad, rad2deg_deg2rad]

/-- C10: on `(-90, 90) × (-180, 180]` the conversion `latlon2unit`
produces a vector of norm exactly one, and `xyz2latlon` recovers the
original latitude and longitude. -/
theorem c10_latlon_roundtrip (lat lon : ℝ)
    (h1 : -90 < lat) (h2 : lat < 90) (h3 : -180 < lon) (h4 : lon ≤ 180) :
    vnorm (latlon2unit (lat, lon)) = 1 ∧
    xyz2latlon (latlon2unit (lat, lon)) = some (lat, lon) :=
  ⟨vnorm_unitOfRad _, latlon2unit_roundtrip lat lon h1 h2 h3 h4⟩

/-- Witness for C10 at `(lat, lon) = (0, 0)`. -/
theorem c10_latlon_roundtrip_witness :
    vnorm (latlon2unit (0, 0)) = 1 ∧
    xyz2latlon (latlon2unit (0, 0)) = some (0, 0) :=
  c10_latlon_roundtrip 0 0 (by norm_num) (by norm_num) (by norm_num) (by norm_num)

-- C8: scenario S1.

/-- C8: for the triangle with vertices (0,0), (0,90), (90,0):
`is_inside((1,1,1)/√3)` holds, `is_inside((-1,1,1))` fails, and
`distance_to_point((-1,0,0))` is `π·R/2` for the Mars radius `R`. -/
theorem c8_scenario_S1 :
    sS1.isInside (vsmul (1 / Real.sqrt 3) ⟨1, 1, 1⟩) ∧
    ¬ sS1.isInside ⟨-1, 1, 1⟩ ∧
    sS1.distanceToPoint ⟨-1, 0, 0⟩ = π * MARS_RADIUS_M / 2 := by
  refine ⟨?_, ?_, distance_sS1_negx⟩
  · intro n hn
    rw [sS1_normalsList] at hn
    have hpos : (0:ℝ) ≤ 1 / Real.sqrt 3 := by positivity
    have hε := eps_pos
    simp only [List.mem_cons, List.mem_singleton, List.not_mem_nil, or_false] at hn
    rcases hn with h | h | h <;> · subst h; simp only [vdot, vsmul]; nlinarith
  · intro h
    have hm : (⟨1, 0, 0⟩ : Vec3) ∈ sS1.normalsList := by
      rw [sS1_normalsList]; simp
    have hle := h _ hm
    simp only [vdot, INCLUSION_EPSILON] at hle
    norm_num at hle

theorem findObsFold_mem (q : PointQuery) (cands : List (String × TriSegment)) :
    ∀ (acc : Finset String) (o : String),
      o ∈ findObsFold q cands acc ↔
        o ∈ acc ∨ ∃ pr ∈ cands, pr.1 = o ∧ pr.2.includesPoint q := by
  induction cands with
  | nil =>
    intro acc o
    simp [findObsFold]
  | cons hd tl ih =>
    intro acc o
    obtain ⟨oid, seg⟩ := hd
    rw [findObsFold]
    by_cases h1 : oid ∈ acc
    · rw [if_pos h1, ih]
      constructor
      · rintro (h | ⟨pr, hpr, he, hi⟩)
        · exact Or.inl h
        · exact Or.inr ⟨pr, List.mem_cons_of_mem _ hpr, he, hi⟩
      · rintro (h | ⟨pr, hpr, he, hi⟩)
        · exact Or.inl h
        · rcases List.mem_cons.mp hpr with hh | hh
          · subst hh
            simp only at he
            exact Or.inl (he ▸ h1)
          · exact Or.inr ⟨pr, hh, he, hi⟩
    · by_cases h2 : seg.includesPoint q
      · rw [if_neg h1, if_pos h2, ih]
        constructor
        · rintro (h | ⟨pr, hpr, he, hi⟩)
          · rcases Finset.mem_insert.mp h with hh | hh
            · exact Or.inr ⟨(oid, seg), List.mem_cons_self _ _, hh.symm, h2⟩
            · exact Or.inl hh
          · exact Or.inr ⟨pr, List.mem_cons_of_mem _ hpr, he, hi⟩
        · rintro (h | ⟨pr, hpr, he, hi⟩)
          · exact Or.inl (Finset.mem_insert_of_mem h)
          · rcases List.mem_cons.mp hpr with hh | hh
            · subst hh
              simp only at he
              exact Or.inl (Finset.mem_insert.mpr (Or.inl he.symm))
            · exact Or.inr ⟨pr, hh, he, hi⟩
      · rw [if_neg h1, if_neg h2, ih]
        constructor
        · rintro (h | ⟨pr, hpr, he, hi⟩)
          · exact Or.inl h
          · exact Or.inr ⟨pr, List.mem_cons_of_mem _ hpr, he, hi⟩
        · rintro (h | ⟨pr, hpr, he, hi⟩)
          · exact Or.inl h
          · rcases List.mem_cons.mp hpr with hh | hh
            · subst hh
              simp only at he hi
              exact absurd hi h2
            · exact Or.inr ⟨pr, hh, he, hi⟩

/-- C2: for a valid `PointQuery` and any list of candidate
`(observation_id, segment)` pairs loaded for the segment tree's
candidate ids, `find_observations_of_latlon` returns a
lexicographically sorted, duplicate-free list containing exactly those
observation ids that have some candidate segment including the query
point. -/
theorem c2_find_observations_of_latlon (cands : List (String × TriSegment))
    (lat lon radius : ℝ) (q : PointQuery)
    (hq : mkPointQuery lat lon radius = some q) :
    List.Sorted (· ≤ ·) (find_observations_of_latlon cands q) ∧
    (find_observations_of_latlon cands q).Nodup ∧
    (∀ o : String, o ∈ find_observations_of_latlon cands q ↔
      ∃ pr ∈ cands, pr.1 = o ∧ pr.2.includesPoint q) := by
  refine ⟨Finset.sort_sorted _ _, Finset.sort_nodup _ _, ?_⟩
  intro o
  rw [find_observations_of_latlon, Finset.mem_sort, findObsFold_mem]
  simp

/-- Witness for C2: the empty candidate list under the valid query
`PointQuery(0, 0, 0)`. -/
theorem c2_find_observations_of_latlon_witness :
    List.Sorted (· ≤ ·) (find_observations_of_latlon [] ⟨0, 0, 0⟩) ∧
    (find_observations_of_latlon [] ⟨0, 0, 0⟩).Nodup ∧
    (∀ o : String, o ∈ find_observations_of_latlon [] ⟨0, 0, 0⟩ ↔
      ∃ pr ∈ ([] : List (String × TriSegment)), pr.1 = o ∧ pr.2.includesPoint ⟨0, 0, 0⟩) :=
  c2_find_observations_of_latlon [] 0 0 0 ⟨0, 0, 0⟩ (by rw [mkPointQuery]; norm_num)

theorem qboiFold_mem (table : List (String × ℕ)) (ids : List String) :
    ∀ (acc : Finset MetaRow) (r : String × ℕ),
      toLex r ∈ ids.foldl (fun acc oid =>
          acc ∪ ((table.filter fun rr => rr.1 = oid).map toLex).toFinset) acc ↔
        toLex r ∈ acc ∨ (r ∈ table ∧ r.1 ∈ ids) := by
  induction ids with
  | nil =>
    intro acc r
    simp
  | cons hd tl ih =>
    intro acc r
    simp only [List.foldl_cons]
    rw [ih]
    have hmem : toLex r ∈ acc ∪ ((table.filter fun rr => rr.1 = hd).map toLex).toFinset ↔
        toLex r ∈ acc ∨ (r ∈ table ∧ r.1 = hd) := by
      rw [Finset.mem_union, List.mem_toFinset, List.mem_map]
      constructor
      · rintro (h | ⟨r2, hr2, he⟩)
        · exact Or.inl h
        · have : r2 = r := toLex.injective he
          subst this
          have := List.mem_filter.mp hr2
          exact Or.inr ⟨this.1, by simpa using this.2⟩
      · rintro (h | ⟨h1, h2⟩)
        · exact Or.inl h
        · exact Or.inr ⟨r, List.mem_filter.mpr ⟨h1, by simpa using h2⟩, rfl⟩
    rw [hmem]
    simp only [List.mem_cons]
    tauto

/-- C5 (amended): `query_by_observation_id` fails (a `TypeError` over
`cur.description = None`) exactly on an empty id collection; for a
nonempty collection it returns the *distinct* rows whose observation id
is among the requested ids, sorted ascending by row value (Python sorts
the collected `set` of row tuples) — not in the table's natural order,
and with exact duplicate rows collapsed. -/
theorem c5_query_by_observation_id (table : List (String × ℕ)) (ids : List String) :
    (query_by_observation_id table ids = none ↔ ids = []) ∧
    (∀ rows : List MetaRow, query_by_observation_id table ids = some rows →
      List.Sorted (· ≤ ·) rows ∧ rows.Nodup ∧
      (∀ r : String × ℕ, toLex r ∈ rows ↔ r ∈ table ∧ r.1 ∈ ids)) := by
  constructor
  · rw [query_by_observation_id]
    split_ifs with h
    · simp [h]
    · simp [h]
  · intro rows hrows
    rw [query_by_observation_id] at hrows
    split_ifs at hrows
    injection hrows with hrows
    subst hrows
    refine ⟨Finset.sort_sorted _ _, Finset.sort_nodup _ _, ?_⟩
    intro r
    rw [Finset.mem_sort, qboiFold_mem]
    simp

/-- Witness for C5 on the one-row table `[("A", 1)]` with the nonempty
id collection `["A"]`: the returned row list is sorted and contains the
matching row. -/
theorem c5_query_by_observation_id_witness :
    List.Sorted (· ≤ ·)
      ((List.foldl (fun acc oid =>
          acc ∪ ((([(("A" : String), (1 : ℕ))].filter fun r => r.1 = oid).map toLex).toFinset))
        ∅ ["A"]).sort (· ≤ ·)) ∧
    toLex (("A" : String), (1 : ℕ)) ∈
      (List.foldl (fun acc oid =>
          acc ∪ ((([(("A" : String), (1 : ℕ))].filter fun r => r.1 = oid).map toLex).toFinset))
        ∅ ["A"]).sort (· ≤ ·) := by
  have h := (c5_query_by_observation_id [("A", 1)] ["A"]).2
    ((List.foldl (fun acc oid =>
        acc ∪ ((([(("A" : String), (1 : ℕ))].filter fun r => r.1 = oid).map toLex).toFinset))
      ∅ ["A"]).sort (· ≤ ·))
    (by rw [query_by_observation_id, if_neg (by simp)])
  exact ⟨h.1, (h.2.2 ("A", 1)).mpr ⟨by simp, by simp⟩⟩

/-- C5 counterexample: on the two-row table `[("A", 2), ("A", 1)]` the
result is sorted by row value rather than following the table's natural
order; on `[("A", 1), ("A", 1)]` the exact duplicate row is collapsed
rather than preserved; and on the empty id collection the source raises
rather than returning the empty row list. -/
theorem c5_counterexample :
    query_by_observation_id [("A", 2), ("A", 1)] ["A"] ≠
      some [toLex ("A", 2), toLex ("A", 1)] ∧
    query_by_observation_id [("A", 1), ("A", 1)] ["A"] ≠
      some [toLex ("A", 1), toLex ("A", 1)] ∧
    query_by_observation_id [("A", 1)] [] = none := by
  refine ⟨?_, ?_, by rw [query_by_observation_id, if_pos rfl]⟩
  · intro h
    rw [query_by_observation_id, if_neg (by simp)] at h
    injection h with h2
    have hs : List.Sorted (· ≤ ·) [toLex (("A" : String), (2 : ℕ)), toLex ("A", 1)] := by
      rw [← h2]
      exact Finset.sort_sorted _ _
    have hle : (toLex (("A" : String), (2 : ℕ))) ≤ toLex ("A", 1) := by
      have := List.sorted_cons.mp hs
      exact this.1 _ (List.mem_singleton.mpr rfl)
    rw [Prod.Lex.le_iff] at hle
    rcases hle with h1 | ⟨h1, h2⟩
    · exact lt_irrefl _ h1
    · norm_num at h2
  · intro h
    rw [query_by_observation_id, if_neg (by simp)] at h
    injection h with h2
    have hn : ([toLex (("A" : String), (1 : ℕ)), toLex ("A", 1)]).Nodup := by
      rw [← h2]
      exact Finset.sort_nodup _ _
    rcases List.nodup_cons.mp hn with ⟨hmem, _⟩
    exact hmem (List.mem_singleton.mpr rfl)

/-- C3: evaluating `store_segments` bookkeeping on a two-record stream
whose first record segments successfully but lacks an `observation_id`
attribute (so its per-record loop raises `ValueError` after appending
the first segment), and whose second record is normal.  The persisted
rows attribute the failed record's first segment to the second record's
observation id and silently drop the second record's last segment —
they are not the complete segmentations of the records that did not
raise. -/
theorem c3_store_segments_misattribution :
    storedSegmentRows
        [⟨some [10, 11], false, ("A")⟩, ⟨some [20, 21], true, ("B")⟩] =
      [(0, ("B"), 10), (1, ("B"), 20)] ∧
    specSegmentRows
        [⟨some [10, 11], false, ("A")⟩, ⟨some [20, 21], true, ("B")⟩] =
      [(0, ("B"), 20), (1, ("B"), 21)] ∧
    storedSegmentRows
        [⟨some [10, 11], false, ("A")⟩, ⟨some [20, 21], true, ("B")⟩] ≠
      specSegmentRows
        [⟨some [10, 11], false, ("A")⟩, ⟨some [20, 21], true, ("B")⟩] := by
  refine ⟨rfl, rfl, ?_⟩
  decide

theorem storeSegments_foldl_ids (records : List IngestRecord)
    (hids : ∀ r ∈ records, r.hasObservationId = true) :
    ∀ A B, records.foldl storeSegmentsStep (A, B) =
      (A ++ (specPairs records).map Prod.fst,
       B ++ (specPairs records).map Prod.snd) := by
  induction records with
  | nil =>
    intro A B
    simp [specPairs]
  | cons r rest ih =>
    intro A B
    have hr : r.hasObservationId = true := hids r (List.mem_cons_self _ _)
    have hrest : ∀ x ∈ rest, x.hasObservationId = true :=
      fun x hx => hids x (List.mem_cons_of_mem _ hx)
    rw [List.foldl_cons]
    cases hseg : r.segmentsOrError with
    | none =>
      have hstep : storeSegmentsStep (A, B) r = (A, B) := by
        rw [storeSegmentsStep, hseg]
      have hsucc : recordSucceeds r = false := by
        rw [recordSucceeds, hseg]
      rw [hstep, ih hrest]
      rw [show specPairs (r :: rest) = specPairs rest by
        rw [specPairs, List.flatMap_cons, hsucc]
        simp [specPairs]]
    | some segs =>
      have hstep : storeSegmentsStep (A, B) r =
          (A ++ segs.map fun _ => r.observationId, B ++ segs) := by
        rw [storeSegmentsStep, hseg]
        simp [hr]
      have hsucc : recordSucceeds r = true := by
        rw [recordSucceeds, hseg, hr]
        simp
      have hpairs : specPairs (r :: rest) =
          (segs.map fun sg => (r.observationId, sg)) ++ specPairs rest := by
        rw [specPairs, List.flatMap_cons, hsucc]
        simp only [if_true, hseg, Option.getD_some]
        rw [specPairs]
      rw [hstep, ih hrest, hpairs]
      simp only [List.map_append, List.map_map, List.append_assoc]
      rw [show (Prod.fst ∘ fun sg : ℕ => (r.observationId, sg)) =
            (fun _ : ℕ => r.observationId) from rfl,
        show (Prod.snd ∘ fun sg : ℕ => (r.observationId, sg)) = id from rfl,
        List.map_id]

/-- The claim's positive half, for reference: when every record carries
an `observation_id` attribute, the persisted rows are exactly the
complete segmentations of the records whose segmentation did not raise,
so the misattribution of `c3_store_segments_misattribution` is confined
to the missing-`observation_id` failure path. -/
theorem store_segments_ok_when_ids_present (records : List IngestRecord)
    (hids : ∀ r ∈ records, r.hasObservationId = true) :
    storedSegmentRows records = specSegmentRows records := by
  rw [storedSegmentRows, storeSegmentsLists,
    storeSegments_foldl_ids records hids [] []]
  simp only [List.nil_append]
  rw [specSegmentRows]
  congr 1
  rw [List.zip_map']
  congr 1
  exact List.map_id (specPairs records)

/-- C6 counterexample: re-running ingestion over an existing artifact
first removes it and then rewrites it in place, so a concurrent reader
can observe a missing artifact (metadata and segment databases) or a
half-written one (the pickled segment tree); the write-to-temp
then-rename discipline claimed by the specification is violated by all
three writers. -/
theorem c6_counterexample :
    ArtifactState.missingFile ∈ observedStates (storeDbOps true) ∧
    ¬ atomicReplacement (storeDbOps true) ∧
    ArtifactState.halfWritten ∈ observedStates segmentTreeSaveOps ∧
    ¬ atomicReplacement segmentTreeSaveOps := by
  refine ⟨by decide, ?_, by decide, ?_⟩
  · intro h
    have := h ArtifactState.missingFile (by decide)
    rcases this with h1 | h1 <;> exact absurd h1 (by decide)
  · intro h
    have := h ArtifactState.halfWritten (by decide)
    rcases this with h1 | h1 <;> exact absurd h1 (by decide)

/-- C6 (amended): re-ingestion replaces each artifact by deleting it
(when present) and rewriting it in place; the exact sequences of states
observable at the artifact path are as computed here, exposing a
missing-file state for the two SQL databases and a half-written state
for all three artifacts before the new artifact is complete. -/
theorem c6_replacement_states :
    observedStates (storeDbOps true) =
      [ArtifactState.oldComplete, ArtifactState.missingFile,
        ArtifactState.halfWritten, ArtifactState.newComplete] ∧
    observedStates segmentTreeSaveOps =
      [ArtifactState.oldComplete, ArtifactState.halfWritten,
        ArtifactState.newComplete] := by
  constructor <;> rfl

-- C4: the four-corner localizer.

/-- C4: evaluating `FourCornerLocalizer.pixel_to_latlon` on the
localizer with corners TL = (0,0), BL = (-10,0), BR = (-10,10),
TR = (0,10) and a 1-by-1 normalized pixel grid, at the top-right pixel
`(row, col) = (0, 1)`: the source returns the *bottom-left* corner
`(-10, 0)`, while the specification's bilinear combination yields the
top-right corner `(0, 10)` — the code transposes the row and column
weights of the bilinear interpolation. -/
theorem c4_fourcorner_transposed :
    fourCornerPixelToLatlon ⟨(0, 0), (-10, 0), (-10, 10), (0, 10), 1, 1⟩ 0 1 =
      some (-10, 0) ∧
    xyz2latlon (specFourCornerCombination
        ⟨(0, 0), (-10, 0), (-10, 10), (0, 10), 1, 1⟩ 0 1) = some (0, 10) ∧
    ((-10 : ℝ), (0 : ℝ)) ≠ ((0 : ℝ), (10 : ℝ)) := by
  have hbl : fourCornerInterpolated ⟨(0, 0), (-10, 0), (-10, 10), (0, 10), 1, 1⟩ 0 1 =
      latlon2unit (-10, 0) := by
    simp only [fourCornerInterpolated, vsmul, vadd]
    rcases htl : latlon2unit ((0:ℝ), (0:ℝ)) with ⟨ax, ay, az⟩
    rcases hbl2 : latlon2unit ((-10:ℝ), (0:ℝ)) with ⟨cx, cy, cz⟩
    rcases hbr : latlon2unit ((-10:ℝ), (10:ℝ)) with ⟨dx, dy, dz⟩
    rcases htr : latlon2unit ((0:ℝ), (10:ℝ)) with ⟨ex, ey, ez⟩
    simp only [Vec3.mk.injEq]
    norm_num
  have htr2 : specFourCornerCombination ⟨(0, 0), (-10, 0), (-10, 10), (0, 10), 1, 1⟩ 0 1 =
      latlon2unit (0, 10) := by
    simp only [specFourCornerCombination, vsmul, vadd]
    rcases htl : latlon2unit ((0:ℝ), (0:ℝ)) with ⟨ax, ay, az⟩
    rcases hbl2 : latlon2unit ((-10:ℝ), (0:ℝ)) with ⟨cx, cy, cz⟩
    rcases hbr : latlon2unit ((-10:ℝ), (10:ℝ)) with ⟨dx, dy, dz⟩
    rcases htr : latlon2unit ((0:ℝ), (10:ℝ)) with ⟨ex, ey, ez⟩
    simp only [Vec3.mk.injEq]
    norm_num
  refine ⟨?_, ?_, ?_⟩
  · rw [fourCornerPixelToLatlon, hbl]
    exact latlon2unit_roundtrip (-10) 0 (by norm_num) (by norm_num)
      (by norm_num) (by norm_num)
  · rw [htr2]
    exact latlon2unit_roundtrip 0 10 (by norm_num) (by norm_num)
      (by norm_num) (by norm_num)
  · intro h
    have := congrArg Prod.fst h
    norm_num at this
